import Mathlib

/-!
Verification of the data-loading and sampling core of a retina-vessel
segmentation pipeline (`drive.py`): transform ops on samples
(CenterCrop, RandomCrop, RandomRotFlip, RandomNoise, CreateOnehotLabel),
the `Drive` dataset's item access, and the `TwoStreamBatchSampler`.

Arrays are embedded shallowly as a shape triple together with a total
data function; numpy slicing, padding, rotation and flipping are
translated operation by operation.  Randomness (crop offsets, rotation
count, flip axis, noise draws, permutations) is modelled by
universally-quantified parameters ranging over the values the random
draws can produce.  Python-level runtime errors (ValueError from
`np.pad` / `np.random.randint`, KeyError, IndexError) are embedded as
`Except.error`.
-/

/-- A 3-axis numeric array: shape `(s0, s1, s2)` plus a total data
function (entries outside the shape are irrelevant). -/
structure Arr3 (α : Type) where
  s0 : Nat
  s1 : Nat
  s2 : Nat
  data : Nat → Nat → Nat → α

/-- A 4-axis numeric array (used for the one-hot label stack). -/
structure Arr4 where
  s0 : Nat
  s1 : Nat
  s2 : Nat
  s3 : Nat
  data : Nat → Nat → Nat → Nat → ℚ

/-- The sample dictionary flowing through the transform pipeline:
keys `image`, `label`, optional `sdf`, optional `onehot_label`. -/
structure Sample where
  image : Arr3 ℚ
  label : Arr3 ℚ
  sdf : Option (Arr3 ℚ)
  onehot_label : Option Arr4

/-- Default (empty) array, used only as the out-of-range fallback of
total list indexing. -/
def arrDefault : Arr3 ℚ := ⟨0, 0, 0, fun _ _ _ => 0⟩

/-- Python slice-bound normalisation for a dimension of size `dim`:
negative indices count from the end, and bounds are clamped to
`[0, dim]`. -/
def pyBound (dim : Nat) (i : Int) : Nat :=
  if i < 0 then ((dim : Int) + i).toNat else min i.toNat dim

/-- `a[st0 : st0+len0, st1 : st1+len1]` on a 3-axis array: numpy basic
slicing of axes 0 and 1 (axis 2 kept in full), with Python bound
normalisation. -/
def slice01 (a : Arr3 ℚ) (st0 st1 : Int) (len0 len1 : Nat) : Arr3 ℚ :=
  let b0 := pyBound a.s0 st0
  let e0 := pyBound a.s0 (st0 + len0)
  let b1 := pyBound a.s1 st1
  let e1 := pyBound a.s1 (st1 + len1)
  ⟨e0 - b0, e1 - b1, a.s2, fun i j l => a.data (b0 + i) (b1 + j) l⟩

/-- `a[:, st1 : st1+len1, st2 : st2+len2]`: numpy slicing of axes 1 and
2 with nonnegative starts (axis 0 kept in full). -/
def slice12 (a : Arr3 ℚ) (st1 st2 len1 len2 : Nat) : Arr3 ℚ :=
  let b1 := min st1 a.s1
  let e1 := min (st1 + len1) a.s1
  let b2 := min st2 a.s2
  let e2 := min (st2 + len2) a.s2
  ⟨a.s0, e1 - b1, e2 - b2, fun i j l => a.data i (b1 + j) (b2 + l)⟩

/-- `a[0:1, :, :]`: keep only the first channel on axis 0. -/
def slice_chan01 (a : Arr3 ℚ) : Arr3 ℚ :=
  ⟨min 1 a.s0, a.s1, a.s2, a.data⟩

/-- `np.pad(a, [(0,0),(pw,pw),(ph,ph)], constant_values=0)`: zero-pad
axes 1 and 2 symmetrically, axis 0 untouched. -/
def pad12 (pw ph : Nat) (a : Arr3 ℚ) : Arr3 ℚ :=
  ⟨a.s0, a.s1 + 2 * pw, a.s2 + 2 * ph, fun i j l =>
    if pw ≤ j ∧ j < a.s1 + pw ∧ ph ≤ l ∧ l < a.s2 + ph then
      a.data i (j - pw) (l - ph)
    else 0⟩

/-- Python `int(round(n / 2.))` for an integer `n`: halve with
round-half-to-even (banker's rounding, Python 3 `round`). -/
def int_round_half (n : Int) : Int :=
  let k := Int.fdiv n 2
  if Int.emod n 2 = 0 then k else if Int.emod k 2 = 0 then k else k + 1

/-- `np.clip(x, lo, hi)` on one element: `min (max x lo) hi`. -/
def npClip (x lo hi : ℚ) : ℚ := min (max x lo) hi

/-- Whether an embedded Python call returned normally (`true`) or
raised (`false`). -/
def exceptOk {ε α : Type} : Except ε α → Bool
  | Except.ok _ => true
  | Except.error _ => false

/-- `CenterCrop(output_size).__call__(sample)` on 3-axis `image` and
`label` (the shapes produced by this repository's `Drive` dataset).
If padding is triggered, `np.pad` receives 2 pad pairs for a 3-axis
array and raises; otherwise the centered offsets are
`int(round((dim - output_size[d]) / 2.))` computed from `image.shape`
and both arrays are sliced on axes 0 and 1. -/
def CenterCrop.call (os0 os1 : Nat) (s : Sample) : Except String Sample :=
  if s.label.s0 ≤ os0 ∨ s.label.s1 ≤ os1 then
    Except.error "ValueError: np.pad with 2 pad pairs on a 3-axis array"
  else
    let w1 := int_round_half ((s.image.s0 : Int) - (os0 : Int))
    let h1 := int_round_half ((s.image.s1 : Int) - (os1 : Int))
    Except.ok ⟨slice01 s.image w1 h1 os0 os1, slice01 s.label w1 h1 os0 os1,
      none, none⟩

theorem int_round_half_nonneg {n : Int} (h : 0 ≤ n) : 0 ≤ int_round_half n := by
  have hk : 0 ≤ Int.fdiv n 2 := Int.fdiv_nonneg h (by norm_num)
  simp only [int_round_half]
  split
  · exact hk
  · split
    · exact hk
    · omega

theorem int_round_half_le {n : Int} (h : 1 ≤ n) : int_round_half n ≤ n := by
  have h2 : Int.fdiv n 2 = n / 2 := Int.fdiv_eq_ediv n (by norm_num)
  simp only [int_round_half, h2]
  split
  · omega
  · split
    · omega
    · omega

/-- The padding step of `RandomCrop.__call__`: triggered when any of the
three label extents is ≤ the corresponding `output_size` entry.  The
code also computes a depth pad `pd` from axis 0 but never uses it: the
`np.pad` call pads only axes 1 and 2 (pad pairs `[(0,0),(pw,pw),(ph,ph)]`),
with `pw`/`ph` the Python values `max((output_size - shape) // 2 + 3, 0)`.
The `sdf` array is padded only when `with_sdf` is set. -/
def RandomCrop.padStep (os0 os1 os2 : Nat) (ws : Bool) (s : Sample) : Sample :=
  if s.label.s0 ≤ os0 ∨ s.label.s1 ≤ os1 ∨ s.label.s2 ≤ os2 then
    let pw := (max (Int.fdiv ((os1 : Int) - (s.label.s1 : Int)) 2 + 3) 0).toNat
    let ph := (max (Int.fdiv ((os2 : Int) - (s.label.s2 : Int)) 2 + 3) 0).toNat
    ⟨pad12 pw ph s.image, pad12 pw ph s.label,
      if ws then s.sdf.map (pad12 pw ph) else s.sdf, s.onehot_label⟩
  else s

/-- `RandomCrop(output_size, with_sdf).__call__(sample)`.  `w1` and `h1`
stand for the two `np.random.randint` draws; the call raises (ValueError)
exactly when a draw's range `[0, dim - output_size)` is empty, i.e. when
the padded width `w` satisfies `w - output_size[1] <= 0` (or the
symmetric condition on `h`).  With `with_sdf` set, `sample['sdf']` is
fetched first (KeyError if absent).  All present arrays are sliced with
the same offsets: full axis 0, `[w1, w1+output_size[1])` on axis 1,
`[h1, h1+output_size[2])` on axis 2. -/
def RandomCrop.call (os0 os1 os2 : Nat) (ws : Bool) (w1 h1 : Nat) (s : Sample) :
    Except String Sample :=
  if ws && s.sdf.isNone then Except.error "KeyError: sdf"
  else
    let p := RandomCrop.padStep os0 os1 os2 ws s
    if p.image.s1 ≤ os1 ∨ p.image.s2 ≤ os2 then
      Except.error "ValueError: np.random.randint low >= high"
    else if ws then
      Except.ok ⟨slice12 p.image w1 h1 os1 os2, slice12 p.label w1 h1 os1 os2,
        p.sdf.map (fun a => slice12 a w1 h1 os1 os2), none⟩
    else
      Except.ok ⟨slice12 p.image w1 h1 os1 os2, slice12 p.label w1 h1 os1 os2,
        none, none⟩

/-- `np.rot90(a, axes=(1, 2))`: one counterclockwise quarter turn in the
plane of axes 1 and 2; result shape `(s0, s2, s1)` and
`out[i, j, l] = a[i, l, s2 - 1 - j]`. -/
def rot90_12 (a : Arr3 ℚ) : Arr3 ℚ :=
  ⟨a.s0, a.s2, a.s1, fun i j l => a.data i l (a.s2 - 1 - j)⟩

/-- `k` successive applications of `np.rot90(·, axes=(1, 2))` (the
`for i in range(k)` loop of `RandomRotFlip`). -/
def rotK : Nat → Arr3 ℚ → Arr3 ℚ
  | 0, a => a
  | k + 1, a => rotK k (rot90_12 a)

/-- `np.flip(a, axis=axis)` for a 3-axis array. -/
def flipAx (axis : Nat) (a : Arr3 ℚ) : Arr3 ℚ :=
  if axis = 0 then ⟨a.s0, a.s1, a.s2, fun i j l => a.data (a.s0 - 1 - i) j l⟩
  else if axis = 1 then ⟨a.s0, a.s1, a.s2, fun i j l => a.data i (a.s1 - 1 - j) l⟩
  else ⟨a.s0, a.s1, a.s2, fun i j l => a.data i j (a.s2 - 1 - l)⟩

/-- `RandomRotFlip.__call__(sample)` where `k` is the
`np.random.randint(0, 4)` rotation-count draw and `axis` the
`np.random.randint(0, 2)` flip-axis draw: the same `k` quarter turns
about axes (1,2) and then the same flip are applied to `image` and
`label`; the returned dictionary has exactly the keys `image`, `label`. -/
def RandomRotFlip.call (k axis : Nat) (s : Sample) : Sample :=
  ⟨flipAx axis (rotK k s.image), flipAx axis (rotK k s.label), none, none⟩

/-- `RandomNoise(mu, sigma).__call__(sample)` where `r` stands for the
`np.random.randn` draw: per element the noise is
`clip(sigma * r, -2*sigma, 2*sigma) + mu`, added to `image` only; the
returned dictionary has exactly the keys `image`, `label`, with `label`
passed through unchanged. -/
def RandomNoise.call (mu sigma : ℚ) (r : Nat → Nat → Nat → ℚ) (s : Sample) : Sample :=
  ⟨⟨s.image.s0, s.image.s1, s.image.s2, fun i j l =>
      s.image.data i j l + (npClip (sigma * r i j l) (-(2 * sigma)) (2 * sigma) + mu)⟩,
    s.label, none, none⟩

/-- The one-hot stack of `CreateOnehotLabel`: a zero array of shape
`(num_classes, *label.shape)` whose channel `c < num_classes` is filled
with the 0/1 indicator of `label == c`. -/
def onehotOf (num_classes : Nat) (label : Arr3 ℚ) : Arr4 :=
  ⟨num_classes, label.s0, label.s1, label.s2, fun c i j l =>
    if c < num_classes ∧ label.data i j l = (c : ℚ) then 1 else 0⟩

/-- `CreateOnehotLabel(num_classes).__call__(sample)`: the returned
dictionary has exactly the keys `image`, `label`, `onehot_label`. -/
def CreateOnehotLabel.call (num_classes : Nat) (s : Sample) : Sample :=
  ⟨s.image, s.label, none, some (onehotOf num_classes s.label)⟩

/-- The `Drive` dataset after construction: the (already shuffled)
parallel arrays, viewed per leading index, plus the optional transform.
The mask array is not used by `__getitem__` and is omitted. -/
structure Drive where
  image_list : List (Arr3 ℚ)
  label_list : List (Arr3 ℚ)
  transform : Option (Sample → Sample)

/-- `if self.transform: sample = self.transform(sample)`. -/
def applyTransform : Option (Sample → Sample) → Sample → Sample
  | none, s => s
  | some t, s => t s

/-- `Drive.__len__`. -/
def Drive.len (d : Drive) : Nat := d.image_list.length

/-- `Drive.__getitem__(idx)`: numpy integer indexing on the leading
axis accepts `idx ∈ [-N, N)` (negative indices count from the end) and
raises IndexError otherwise.  The sample is built from
`image_list[idx]` in full and `label_list[idx, 0:1, :, :]` (first
channel only), then the transform is applied when configured. -/
def Drive.getitem (d : Drive) (idx : Int) : Except String Sample :=
  let N : Int := (d.image_list.length : Int)
  if 0 ≤ idx ∧ idx < N then
    Except.ok (applyTransform d.transform
      ⟨d.image_list.getD idx.toNat arrDefault,
       slice_chan01 (d.label_list.getD idx.toNat arrDefault), none, none⟩)
  else if -N ≤ idx ∧ idx < 0 then
    Except.ok (applyTransform d.transform
      ⟨d.image_list.getD (idx + N).toNat arrDefault,
       slice_chan01 (d.label_list.getD (idx + N).toNat arrDefault), none, none⟩)
  else Except.error "IndexError"

/-- The two `assert` statements of `TwoStreamBatchSampler.__init__`,
with `primary_batch_size = batch_size - secondary_batch_size` computed
in Python (signed) integers: construction succeeds exactly when this
returns `true`. -/
def TwoStreamBatchSampler.initOk (primary_indices secondary_indices : List Nat)
    (batch_size secondary_batch_size : Int) : Bool :=
  let primary_batch_size := batch_size - secondary_batch_size
  (decide ((primary_indices.length : Int) ≥ primary_batch_size ∧ primary_batch_size > 0)) &&
  (decide ((secondary_indices.length : Int) ≥ secondary_batch_size ∧ secondary_batch_size > 0))

/-- `TwoStreamBatchSampler.__len__`: `len(primary_indices) // primary_batch_size`. -/
def TwoStreamBatchSampler.len (primary_indices : List Nat) (primary_batch_size : Nat) : Nat :=
  primary_indices.length / primary_batch_size

/-- Successive full chunks of size `n`: `k` chunks taken from the front
of `l`. -/
def chunksAux {α : Type} (n : Nat) : Nat → List α → List (List α)
  | 0, _ => []
  | k + 1, l => l.take n :: chunksAux n k (l.drop n)

/-- `grouper(iterable, n)` = `zip(*[iter(iterable)]*n)`: the
`len // n` full chunks of size `n`, an incomplete trailing chunk being
silently dropped. -/
def grouper {α : Type} (n : Nat) (l : List α) : List (List α) :=
  chunksAux n (l.length / n) l

/-- `TwoStreamBatchSampler.__iter__`, with the `np.random.permutation`
of the primary pool (`iterate_once`) abstracted as `primary_perm` and
the consumed prefix of the infinite shuffle concatenation
(`iterate_eternally`) abstracted as `secondary_stream`: each yielded
batch is `primary_batch + secondary_batch`, and `zip` stops at the
shorter of the two chunk streams. -/
def TwoStreamBatchSampler.iter (primary_perm secondary_stream : List Nat)
    (primary_batch_size secondary_batch_size : Nat) : List (List Nat) :=
  List.zipWith (fun a b => a ++ b)
    (grouper primary_batch_size primary_perm)
    (grouper secondary_batch_size secondary_stream)

theorem pyBound_of_nonneg {dim : Nat} {i : Int} (h0 : 0 ≤ i) (h1 : i ≤ (dim : Int)) :
    pyBound dim i = i.toNat := by
  simp only [pyBound]
  split
  · omega
  · omega

/-- C10: for a 3-axis sample (the shape arity the `(w, h, d)` unpacking
requires), `CenterCrop.call` returns successfully iff
`label.shape[0] > output_size[0]` and `label.shape[1] > output_size[1]`;
otherwise the padding branch hands `np.pad` two pad pairs for a 3-axis
array, which raises instead of returning. -/
theorem centerCrop_ok_iff (os0 os1 : Nat) (s : Sample) :
    exceptOk (CenterCrop.call os0 os1 s) = true ↔
      os0 < s.label.s0 ∧ os1 < s.label.s1 := by
  simp only [CenterCrop.call]
  split
  · next h =>
    simp only [exceptOk]
    constructor
    · intro hc
      exact absurd hc (by simp)
    · intro hc
      omega
  · next h =>
    simp only [exceptOk]
    constructor
    · intro _
      omega
    · intro _
      trivial

def sampleC2 : Sample :=
  ⟨⟨1, 1, 1, fun _ _ _ => 0⟩, ⟨1, 1, 1, fun _ _ _ => 0⟩, none, none⟩

/-- C2 (counterexample): on a 1×1×1 sample with `output_size = (2, 2)`
the padding branch is taken and `CenterCrop.call` raises, so it does
not return a sample of spatial shape `(2, 2)` — contradicting the
claim that for every sample the output shape equals `output_size`. -/
theorem centerCrop_claim_counterexample :
    exceptOk (CenterCrop.call 2 2 sampleC2) = false := rfl

/-- C2 (amended): when no padding is needed (`label.shape[0] >
output_size[0]` and `label.shape[1] > output_size[1]`, the only case in
which `CenterCrop` returns at all, by `centerCrop_ok_iff`) and image and
label agree on their first two extents, `CenterCrop.call` returns a
sample whose image and label have first-two-axes shape exactly
`output_size` (third axis untouched), both sliced from the centered
start offsets `int(round((dim - output_size[d]) / 2.))`. -/
theorem centerCrop_success (os0 os1 : Nat) (s : Sample)
    (h0 : os0 < s.label.s0) (h1 : os1 < s.label.s1)
    (hi0 : s.image.s0 = s.label.s0) (hi1 : s.image.s1 = s.label.s1) :
    ∃ img lab,
      CenterCrop.call os0 os1 s = Except.ok ⟨img, lab, none, none⟩ ∧
      img.s0 = os0 ∧ img.s1 = os1 ∧ img.s2 = s.image.s2 ∧
      lab.s0 = os0 ∧ lab.s1 = os1 ∧ lab.s2 = s.label.s2 ∧
      (∀ i j l, img.data i j l =
        s.image.data ((int_round_half ((s.image.s0 : Int) - os0)).toNat + i)
          ((int_round_half ((s.image.s1 : Int) - os1)).toNat + j) l) ∧
      (∀ i j l, lab.data i j l =
        s.label.data ((int_round_half ((s.image.s0 : Int) - os0)).toNat + i)
          ((int_round_half ((s.image.s1 : Int) - os1)).toNat + j) l) := by
  have hw1 : (1 : Int) ≤ (s.image.s0 : Int) - os0 := by omega
  have hh1 : (1 : Int) ≤ (s.image.s1 : Int) - os1 := by omega
  set w1 := int_round_half ((s.image.s0 : Int) - os0) with hw1def
  set g1 := int_round_half ((s.image.s1 : Int) - os1) with hg1def
  have hw0 : 0 ≤ w1 := int_round_half_nonneg (by omega)
  have hg0 : 0 ≤ g1 := int_round_half_nonneg (by omega)
  have hwle : w1 ≤ (s.image.s0 : Int) - os0 := int_round_half_le hw1
  have hgle : g1 ≤ (s.image.s1 : Int) - os1 := int_round_half_le hh1
  have hcond : ¬ (s.label.s0 ≤ os0 ∨ s.label.s1 ≤ os1) := by omega
  have e1 : pyBound s.image.s0 w1 = w1.toNat := pyBound_of_nonneg hw0 (by omega)
  have e2 : pyBound s.image.s0 (w1 + (os0 : Int)) = (w1 + (os0 : Int)).toNat :=
    pyBound_of_nonneg (by omega) (by omega)
  have e3 : pyBound s.image.s1 g1 = g1.toNat := pyBound_of_nonneg hg0 (by omega)
  have e4 : pyBound s.image.s1 (g1 + (os1 : Int)) = (g1 + (os1 : Int)).toNat :=
    pyBound_of_nonneg (by omega) (by omega)
  have e5 : pyBound s.label.s0 w1 = w1.toNat := pyBound_of_nonneg hw0 (by omega)
  have e6 : pyBound s.label.s0 (w1 + (os0 : Int)) = (w1 + (os0 : Int)).toNat :=
    pyBound_of_nonneg (by omega) (by omega)
  have e7 : pyBound s.label.s1 g1 = g1.toNat := pyBound_of_nonneg hg0 (by omega)
  have e8 : pyBound s.label.s1 (g1 + (os1 : Int)) = (g1 + (os1 : Int)).toNat :=
    pyBound_of_nonneg (by omega) (by omega)
  refine ⟨slice01 s.image w1 g1 os0 os1, slice01 s.label w1 g1 os0 os1,
    ?_, ?_, ?_, ?_, ?_, ?_, ?_, ?_, ?_⟩
  · simp only [CenterCrop.call, if_neg hcond]
  · simp only [slice01, e1, e2]
    omega
  · simp only [slice01, e3, e4]
    omega
  · simp only [slice01]
  · simp only [slice01, e5, e6]
    omega
  · simp only [slice01, e7, e8]
    omega
  · simp only [slice01]
  · intro i j l
    simp only [slice01, e1, e3]
  · intro i j l
    simp only [slice01, e5, e7]

def sampleC2w : Sample :=
  ⟨⟨3, 3, 2, fun i j _ => (i : ℚ) * 3 + j⟩, ⟨3, 3, 1, fun i j _ => (i : ℚ) + j⟩,
    none, none⟩

theorem centerCrop_success_witness :
    ∃ img lab,
      CenterCrop.call 1 1 sampleC2w = Except.ok ⟨img, lab, none, none⟩ ∧
      img.s0 = 1 ∧ img.s1 = 1 ∧ img.s2 = sampleC2w.image.s2 ∧
      lab.s0 = 1 ∧ lab.s1 = 1 ∧ lab.s2 = sampleC2w.label.s2 ∧
      (∀ i j l, img.data i j l =
        sampleC2w.image.data ((int_round_half ((sampleC2w.image.s0 : Int) - (1 : Nat))).toNat + i)
          ((int_round_half ((sampleC2w.image.s1 : Int) - (1 : Nat))).toNat + j) l) ∧
      (∀ i j l, lab.data i j l =
        sampleC2w.label.data ((int_round_half ((sampleC2w.image.s0 : Int) - (1 : Nat))).toNat + i)
          ((int_round_half ((sampleC2w.image.s1 : Int) - (1 : Nat))).toNat + j) l) :=
  centerCrop_success 1 1 sampleC2w (by decide) (by decide) (by decide) (by decide)

/-- C4: `RandomRotFlip` applies the same drawn rotation count `k` and
the same drawn flip axis to `image` and `label`: both outputs are the
respective inputs under the one shared transform
`flipAx axis ∘ rotK k` — never independently drawn transforms. -/
theorem randomRotFlip_consistent (k axis : Nat) (s : Sample) :
    (RandomRotFlip.call k axis s).image = flipAx axis (rotK k s.image) ∧
    (RandomRotFlip.call k axis s).label = flipAx axis (rotK k s.label) :=
  ⟨rfl, rfl⟩

/-- C9 (amended): `CreateOnehotLabel` keeps `image` and `label`
unchanged and adds the `onehot_label` stack, but it rebuilds the sample
dictionary with exactly those three keys: any other key of the input —
in particular `sdf` — is dropped, not preserved. -/
theorem createOnehot_keys (num_classes : Nat) (s : Sample) :
    (CreateOnehotLabel.call num_classes s).image = s.image ∧
    (CreateOnehotLabel.call num_classes s).label = s.label ∧
    (CreateOnehotLabel.call num_classes s).onehot_label =
      some (onehotOf num_classes s.label) ∧
    (CreateOnehotLabel.call num_classes s).sdf = none :=
  ⟨rfl, rfl, rfl, rfl⟩

def sampleC9 : Sample :=
  ⟨⟨1, 1, 1, fun _ _ _ => 0⟩, ⟨1, 1, 1, fun _ _ _ => 0⟩,
    some ⟨1, 1, 1, fun _ _ _ => 5⟩, none⟩

/-- C9 (counterexample): on a sample carrying an `sdf` key,
`CreateOnehotLabel` returns a sample whose `sdf` is gone — the input's
`sdf` value is not carried over, contradicting the claim that all input
keys are preserved. -/
theorem createOnehot_drops_sdf :
    (CreateOnehotLabel.call 2 sampleC9).sdf ≠ sampleC9.sdf := by
  simp [CreateOnehotLabel.call, sampleC9]

theorem npClip_abs_le (x sigma : ℚ) :
    |npClip x (-(2 * sigma)) (2 * sigma)| ≤ 2 * |sigma| := by
  have h1 := le_abs_self sigma
  have h2 := neg_abs_le sigma
  have h3 : npClip x (-(2 * sigma)) (2 * sigma) ≤ 2 * sigma := min_le_right _ _
  have h5 : -(2 * |sigma|) ≤ npClip x (-(2 * sigma)) (2 * sigma) := by
    rcases le_total (max x (-(2 * sigma))) (2 * sigma) with h | h
    · have he : npClip x (-(2 * sigma)) (2 * sigma) = max x (-(2 * sigma)) :=
        min_eq_left h
      have h4 : -(2 * sigma) ≤ max x (-(2 * sigma)) := le_max_right _ _
      rw [he]
      linarith
    · have he : npClip x (-(2 * sigma)) (2 * sigma) = 2 * sigma := min_eq_right h
      rw [he]
      linarith
  rw [abs_le]
  exact ⟨h5, by linarith⟩

/-- C6 (amended): `RandomNoise` leaves `label` bit-identical and the
image shape unchanged, and every element of the returned image differs
from the input by the clipped draw plus `mu`; so the deviation minus
`mu` is bounded by `2 * |sigma|` elementwise.  (The claim's bound
`|out - in| ≤ 2 * sigma` only holds for the default `mu = 0` and
`sigma ≥ 0`: the code adds `mu` after clipping.) -/
theorem randomNoise_bound (mu sigma : ℚ) (r : Nat → Nat → Nat → ℚ) (s : Sample) :
    (RandomNoise.call mu sigma r s).label = s.label ∧
    (RandomNoise.call mu sigma r s).image.s0 = s.image.s0 ∧
    (RandomNoise.call mu sigma r s).image.s1 = s.image.s1 ∧
    (RandomNoise.call mu sigma r s).image.s2 = s.image.s2 ∧
    ∀ i j l,
      |(RandomNoise.call mu sigma r s).image.data i j l - s.image.data i j l - mu|
        ≤ 2 * |sigma| := by
  refine ⟨rfl, rfl, rfl, rfl, ?_⟩
  intro i j l
  have he : (RandomNoise.call mu sigma r s).image.data i j l - s.image.data i j l - mu
      = npClip (sigma * r i j l) (-(2 * sigma)) (2 * sigma) := by
    simp only [RandomNoise.call]
    ring
  rw [he]
  exact npClip_abs_le _ _

def sampleC6 : Sample :=
  ⟨⟨1, 1, 1, fun _ _ _ => 0⟩, ⟨1, 1, 1, fun _ _ _ => 0⟩, none, none⟩

/-- C6 (counterexample): with `mu = 1` and `sigma = 0` (and any draw),
the returned image element differs from the input by `1 > 2 * sigma = 0`:
the claimed bound fails for nonzero `mu` because the code adds `mu`
after clipping. -/
theorem randomNoise_claim_counterexample :
    ¬ (|(RandomNoise.call 1 0 (fun _ _ _ => 0) sampleC6).image.data 0 0 0 -
        sampleC6.image.data 0 0 0| ≤ 2 * 0) := by
  norm_num [RandomNoise.call, sampleC6, npClip]

/-- C7: `TwoStreamBatchSampler` construction succeeds (both `assert`
statements pass) if and only if
`len(primary_indices) >= primary_batch_size > 0` and
`len(secondary_indices) >= secondary_batch_size > 0`, with
`primary_batch_size = batch_size - secondary_batch_size`; a violation
is an immediate assertion failure, and nothing else in `__init__` can
fail afterwards. -/
theorem twoStream_init_iff (p s : List Nat) (bs sbs : Int) :
    TwoStreamBatchSampler.initOk p s bs sbs = true ↔
      ((p.length : Int) ≥ bs - sbs ∧ bs - sbs > 0 ∧
       (s.length : Int) ≥ sbs ∧ sbs > 0) := by
  simp [TwoStreamBatchSampler.initOk, and_assoc]

/-- C5: `CreateOnehotLabel` stores under `onehot_label` a stack of
shape `(num_classes, *label.shape)` whose channel `c < num_classes` is
the 0/1 indicator of `label == c`; and wherever the label value is some
natural number below `num_classes`, the channel-wise sum at that voxel
is exactly 1. -/
theorem createOnehot_channels (num_classes : Nat) (s : Sample) :
    (CreateOnehotLabel.call num_classes s).onehot_label =
      some (onehotOf num_classes s.label) ∧
    (onehotOf num_classes s.label).s0 = num_classes ∧
    (onehotOf num_classes s.label).s1 = s.label.s0 ∧
    (onehotOf num_classes s.label).s2 = s.label.s1 ∧
    (onehotOf num_classes s.label).s3 = s.label.s2 ∧
    (∀ c, c < num_classes → ∀ i j l,
      (onehotOf num_classes s.label).data c i j l =
        if s.label.data i j l = (c : ℚ) then 1 else 0) ∧
    (∀ i j l, (∃ m : Nat, m < num_classes ∧ s.label.data i j l = (m : ℚ)) →
      (Finset.range num_classes).sum
        (fun c => (onehotOf num_classes s.label).data c i j l) = 1) := by
  refine ⟨rfl, rfl, rfl, rfl, rfl, ?_, ?_⟩
  · intro c hc i j l
    simp [onehotOf, hc]
  · rintro i j l ⟨m, hm, hval⟩
    have hterm : ∀ c ∈ Finset.range num_classes,
        (onehotOf num_classes s.label).data c i j l
          = if m = c then (1 : ℚ) else 0 := by
      intro c hc
      have hcn : c < num_classes := Finset.mem_range.mp hc
      simp only [onehotOf, hval, hcn, true_and, Nat.cast_inj]
    rw [Finset.sum_congr rfl hterm, Finset.sum_ite_eq]
    simp [Finset.mem_range.mpr hm]

def sampleC5 : Sample :=
  ⟨⟨1, 1, 1, fun _ _ _ => 0⟩, ⟨1, 1, 1, fun _ _ _ => 1⟩, none, none⟩

theorem createOnehot_channels_witness :
    (Finset.range 2).sum (fun c => (onehotOf 2 sampleC5.label).data c 0 0 0) = 1 :=
  (createOnehot_channels 2 sampleC5).2.2.2.2.2.2 0 0 0
    ⟨1, by norm_num, by norm_num [sampleC5]⟩

/-- C8 (amended): `Drive.__getitem__(idx)` raises an IndexError exactly
when `idx` lies outside `[-N, N)` — numpy integer indexing accepts
negative indices counting from the end, so not every index outside
`[0, N)` fails — and for `idx ∈ [0, N)` it returns the sample built
from `image_list[idx]` in full and the first channel
(`label_list[idx, 0:1, :, :]`) of the label, with the configured
transform applied. -/
theorem drive_getitem_spec (d : Drive) (idx : Int) :
    (exceptOk (Drive.getitem d idx) = false ↔
      (idx < -(d.image_list.length : Int) ∨ (d.image_list.length : Int) ≤ idx)) ∧
    (0 ≤ idx → idx < (d.image_list.length : Int) →
      Drive.getitem d idx = Except.ok (applyTransform d.transform
        ⟨d.image_list.getD idx.toNat arrDefault,
         slice_chan01 (d.label_list.getD idx.toNat arrDefault), none, none⟩)) := by
  constructor
  · simp only [Drive.getitem]
    split
    · next h =>
      simp only [exceptOk]
      constructor
      · intro hc
        exact absurd hc (by simp)
      · intro hc
        omega
    · next h =>
      split
      · next h2 =>
        simp only [exceptOk]
        constructor
        · intro hc
          exact absurd hc (by simp)
        · intro hc
          omega
      · next h2 =>
        simp only [exceptOk]
        constructor
        · intro _
          omega
        · intro _
          trivial
  · intro h0 hN
    simp only [Drive.getitem]
    rw [if_pos ⟨h0, hN⟩]

def arrC8a : Arr3 ℚ := ⟨2, 2, 2, fun i j l => (i : ℚ) + j + l⟩

def arrC8b : Arr3 ℚ := ⟨2, 2, 2, fun i j l => (i : ℚ) * j * l⟩

def driveC8 : Drive := ⟨[arrC8a], [arrC8b], none⟩

/-- C8 (counterexample): on a dataset of length 1, `__getitem__(-1)` is
outside `[0, N)` yet returns normally (numpy negative indexing),
contradicting the claim that every such index fails with an index
error. -/
theorem drive_getitem_claim_counterexample :
    exceptOk (Drive.getitem driveC8 (-1)) = true := rfl

theorem drive_getitem_spec_witness :
    Drive.getitem driveC8 0 = Except.ok (applyTransform driveC8.transform
      ⟨driveC8.image_list.getD (0 : Int).toNat arrDefault,
       slice_chan01 (driveC8.label_list.getD (0 : Int).toNat arrDefault), none, none⟩) :=
  (drive_getitem_spec driveC8 0).2 (by norm_num) (by norm_num [driveC8])

theorem slice12_spec (a : Arr3 ℚ) (st1 st2 len1 len2 : Nat)
    (h1 : st1 + len1 ≤ a.s1) (h2 : st2 + len2 ≤ a.s2) :
    (slice12 a st1 st2 len1 len2).s0 = a.s0 ∧
    (slice12 a st1 st2 len1 len2).s1 = len1 ∧
    (slice12 a st1 st2 len1 len2).s2 = len2 ∧
    ∀ i j l, (slice12 a st1 st2 len1 len2).data i j l = a.data i (st1 + j) (st2 + l) := by
  have e1 : min st1 a.s1 = st1 := by omega
  have e2 : min (st1 + len1) a.s1 = st1 + len1 := by omega
  have e3 : min st2 a.s2 = st2 := by omega
  have e4 : min (st2 + len2) a.s2 = st2 + len2 := by omega
  refine ⟨rfl, ?_, ?_, ?_⟩
  · simp only [slice12, e1, e2]
    omega
  · simp only [slice12, e3, e4]
    omega
  · intro i j l
    simp only [slice12, e1, e3]

theorem padStep_label_shape (os0 os1 os2 : Nat) (ws : Bool) (s : Sample)
    (hl1 : s.label.s1 = s.image.s1) (hl2 : s.label.s2 = s.image.s2) :
    (RandomCrop.padStep os0 os1 os2 ws s).label.s1 =
      (RandomCrop.padStep os0 os1 os2 ws s).image.s1 ∧
    (RandomCrop.padStep os0 os1 os2 ws s).label.s2 =
      (RandomCrop.padStep os0 os1 os2 ws s).image.s2 := by
  simp only [RandomCrop.padStep]
  split
  · simp [pad12, hl1, hl2]
  · exact ⟨hl1, hl2⟩

theorem padStep_sdf_shape (os0 os1 os2 : Nat) (s : Sample)
    (hs : ∀ a, s.sdf = some a → a.s1 = s.image.s1 ∧ a.s2 = s.image.s2) :
    ∀ pa, (RandomCrop.padStep os0 os1 os2 true s).sdf = some pa →
      pa.s1 = (RandomCrop.padStep os0 os1 os2 true s).image.s1 ∧
      pa.s2 = (RandomCrop.padStep os0 os1 os2 true s).image.s2 := by
  simp only [RandomCrop.padStep]
  split
  · intro pa hpa
    cases hsome : s.sdf with
    | none => simp [hsome] at hpa
    | some a =>
      simp only [hsome] at hpa
      simp at hpa
      obtain ⟨h1, h2⟩ := hs a hsome
      simp [← hpa, pad12, h1, h2]
  · intro pa hpa
    exact hs pa hpa

theorem padStep_sdf_some (os0 os1 os2 : Nat) (s : Sample) (a : Arr3 ℚ)
    (ha : s.sdf = some a) :
    ∃ pa, (RandomCrop.padStep os0 os1 os2 true s).sdf = some pa := by
  simp only [RandomCrop.padStep]
  split
  · refine ⟨pad12 ((max (Int.fdiv ((os1 : Int) - (s.label.s1 : Int)) 2 + 3) 0).toNat)
      ((max (Int.fdiv ((os2 : Int) - (s.label.s2 : Int)) 2 + 3) 0).toNat) a, ?_⟩
    simp [ha]
  · exact ⟨a, ha⟩

/-- C3: after the padding step of `RandomCrop`, writing `w`, `h` for
the padded image extents on axes 1 and 2: the call raises a runtime
error exactly when `w - output_size[1] <= 0` or `h - output_size[2] <= 0`
(empty `np.random.randint` range); otherwise, for any draws
`w1 < w - output_size[1]` and `h1 < h - output_size[2]`, it returns a
sample in which the full extent of axis 0 is kept and `image`, `label`
— and `sdf` exactly when `with_sdf` is set — are sliced with the
identical offsets, to extents `output_size[1]`, `output_size[2]` on
axes 1 and 2.  The shape hypotheses are the pipeline invariant that
`label` (and `sdf` when present) agree with `image` on axes 1 and 2. -/
theorem randomCrop_spec (os0 os1 os2 : Nat) (ws : Bool) (w1 h1 : Nat) (s : Sample)
    (hsdf : ws = true → s.sdf.isSome = true)
    (hl1 : s.label.s1 = s.image.s1) (hl2 : s.label.s2 = s.image.s2)
    (hshape : ∀ a, s.sdf = some a → a.s1 = s.image.s1 ∧ a.s2 = s.image.s2) :
    ((RandomCrop.padStep os0 os1 os2 ws s).image.s1 ≤ os1 ∨
        (RandomCrop.padStep os0 os1 os2 ws s).image.s2 ≤ os2 →
      exceptOk (RandomCrop.call os0 os1 os2 ws w1 h1 s) = false) ∧
    (os1 < (RandomCrop.padStep os0 os1 os2 ws s).image.s1 →
     os2 < (RandomCrop.padStep os0 os1 os2 ws s).image.s2 →
     w1 < (RandomCrop.padStep os0 os1 os2 ws s).image.s1 - os1 →
     h1 < (RandomCrop.padStep os0 os1 os2 ws s).image.s2 - os2 →
      ∃ out, RandomCrop.call os0 os1 os2 ws w1 h1 s = Except.ok out ∧
        out.image.s0 = (RandomCrop.padStep os0 os1 os2 ws s).image.s0 ∧
        out.image.s1 = os1 ∧ out.image.s2 = os2 ∧
        (∀ i j l, out.image.data i j l =
          (RandomCrop.padStep os0 os1 os2 ws s).image.data i (w1 + j) (h1 + l)) ∧
        out.label.s0 = (RandomCrop.padStep os0 os1 os2 ws s).label.s0 ∧
        out.label.s1 = os1 ∧ out.label.s2 = os2 ∧
        (∀ i j l, out.label.data i j l =
          (RandomCrop.padStep os0 os1 os2 ws s).label.data i (w1 + j) (h1 + l)) ∧
        (ws = false → out.sdf = none) ∧
        (ws = true → ∃ pa, (RandomCrop.padStep os0 os1 os2 ws s).sdf = some pa ∧
          out.sdf = some (slice12 pa w1 h1 os1 os2) ∧
          (slice12 pa w1 h1 os1 os2).s0 = pa.s0 ∧
          (slice12 pa w1 h1 os1 os2).s1 = os1 ∧
          (slice12 pa w1 h1 os1 os2).s2 = os2 ∧
          (∀ i j l, (slice12 pa w1 h1 os1 os2).data i j l =
            pa.data i (w1 + j) (h1 + l)))) := by
  cases ws with
  | false =>
    constructor
    · intro hbad
      simp only [RandomCrop.call, Bool.false_and, Bool.false_eq_true, if_false]
      rw [if_pos hbad]
      rfl
    · intro hos1 hos2 hw1 hh1
      have hlab := padStep_label_shape os0 os1 os2 false s hl1 hl2
      have hb1 : w1 + os1 ≤ (RandomCrop.padStep os0 os1 os2 false s).image.s1 := by
        omega
      have hb2 : h1 + os2 ≤ (RandomCrop.padStep os0 os1 os2 false s).image.s2 := by
        omega
      have hcond : ¬ ((RandomCrop.padStep os0 os1 os2 false s).image.s1 ≤ os1 ∨
          (RandomCrop.padStep os0 os1 os2 false s).image.s2 ≤ os2) := by omega
      obtain ⟨si0, si1, si2, sid⟩ :=
        slice12_spec (RandomCrop.padStep os0 os1 os2 false s).image w1 h1 os1 os2 hb1 hb2
      obtain ⟨sl0, sl1, sl2, sld⟩ :=
        slice12_spec (RandomCrop.padStep os0 os1 os2 false s).label w1 h1 os1 os2
          (by omega) (by omega)
      refine ⟨⟨slice12 (RandomCrop.padStep os0 os1 os2 false s).image w1 h1 os1 os2,
        slice12 (RandomCrop.padStep os0 os1 os2 false s).label w1 h1 os1 os2,
        none, none⟩, ?_, si0, si1, si2, sid, sl0, sl1, sl2, sld, fun _ => rfl,
        fun hcontra => absurd hcontra (by simp)⟩
      simp only [RandomCrop.call, Bool.false_and, Bool.false_eq_true, if_false]
      rw [if_neg hcond]
  | true =>
    have hsome : s.sdf.isSome = true := hsdf rfl
    have hkey : (true && s.sdf.isNone) = false := by
      cases hsm : s.sdf with
      | none => rw [hsm] at hsome; simp at hsome
      | some a => simp [hsm]
    constructor
    · intro hbad
      simp only [RandomCrop.call, hkey, Bool.false_eq_true, if_false]
      rw [if_pos hbad]
      rfl
    · intro hos1 hos2 hw1 hh1
      have hlab := padStep_label_shape os0 os1 os2 true s hl1 hl2
      have hb1 : w1 + os1 ≤ (RandomCrop.padStep os0 os1 os2 true s).image.s1 := by
        omega
      have hb2 : h1 + os2 ≤ (RandomCrop.padStep os0 os1 os2 true s).image.s2 := by
        omega
      have hcond : ¬ ((RandomCrop.padStep os0 os1 os2 true s).image.s1 ≤ os1 ∨
          (RandomCrop.padStep os0 os1 os2 true s).image.s2 ≤ os2) := by omega
      obtain ⟨si0, si1, si2, sid⟩ :=
        slice12_spec (RandomCrop.padStep os0 os1 os2 true s).image w1 h1 os1 os2 hb1 hb2
      obtain ⟨sl0, sl1, sl2, sld⟩ :=
        slice12_spec (RandomCrop.padStep os0 os1 os2 true s).label w1 h1 os1 os2
          (by omega) (by omega)
      obtain ⟨a, ha⟩ := Option.isSome_iff_exists.mp hsome
      obtain ⟨pa, hpa⟩ := padStep_sdf_some os0 os1 os2 s a ha
      obtain ⟨ps1, ps2⟩ := padStep_sdf_shape os0 os1 os2 s hshape pa hpa
      obtain ⟨ss0, ss1, ss2, ssd⟩ :=
        slice12_spec pa w1 h1 os1 os2 (by omega) (by omega)
      refine ⟨⟨slice12 (RandomCrop.padStep os0 os1 os2 true s).image w1 h1 os1 os2,
        slice12 (RandomCrop.padStep os0 os1 os2 true s).label w1 h1 os1 os2,
        some (slice12 pa w1 h1 os1 os2), none⟩, ?_, si0, si1, si2, sid,
        sl0, sl1, sl2, sld, fun hcontra => absurd hcontra (by simp),
        fun _ => ⟨pa, hpa, rfl, ss0, ss1, ss2, ssd⟩⟩
      simp only [RandomCrop.call, hkey, Bool.false_eq_true, if_false]
      rw [if_neg hcond]
      simp [hpa]

def sampleC3w : Sample :=
  ⟨⟨1, 3, 3, fun i j l => (i : ℚ) + j + l⟩, ⟨1, 3, 3, fun i j l => (i : ℚ) * j * l⟩,
    none, none⟩

theorem randomCrop_spec_witness :
    ∃ out, RandomCrop.call 0 2 2 false 0 0 sampleC3w = Except.ok out ∧
      out.image.s0 = (RandomCrop.padStep 0 2 2 false sampleC3w).image.s0 ∧
      out.image.s1 = 2 ∧ out.image.s2 = 2 ∧
      (∀ i j l, out.image.data i j l =
        (RandomCrop.padStep 0 2 2 false sampleC3w).image.data i (0 + j) (0 + l)) ∧
      out.label.s0 = (RandomCrop.padStep 0 2 2 false sampleC3w).label.s0 ∧
      out.label.s1 = 2 ∧ out.label.s2 = 2 ∧
      (∀ i j l, out.label.data i j l =
        (RandomCrop.padStep 0 2 2 false sampleC3w).label.data i (0 + j) (0 + l)) ∧
      (false = false → out.sdf = none) ∧
      (false = true → ∃ pa, (RandomCrop.padStep 0 2 2 false sampleC3w).sdf = some pa ∧
        out.sdf = some (slice12 pa 0 0 2 2) ∧
        (slice12 pa 0 0 2 2).s0 = pa.s0 ∧
        (slice12 pa 0 0 2 2).s1 = 2 ∧
        (slice12 pa 0 0 2 2).s2 = 2 ∧
        (∀ i j l, (slice12 pa 0 0 2 2).data i j l = pa.data i (0 + j) (0 + l))) :=
  (randomCrop_spec 0 2 2 false 0 0 sampleC3w
    (by intro h; simp at h) rfl rfl
    (by intro a h; simp [sampleC3w] at h)).2
    (by decide) (by decide) (by decide) (by decide)

theorem chunksAux_length {α : Type} (n : Nat) :
    ∀ (k : Nat) (l : List α), (chunksAux n k l).length = k := by
  intro k
  induction k with
  | zero => intro l; rfl
  | succ k ih =>
    intro l
    simp [chunksAux, ih]

theorem chunksAux_mem_length {α : Type} (n : Nat) :
    ∀ (k : Nat) (l : List α), n * k ≤ l.length →
      ∀ b ∈ chunksAux n k l, b.length = n := by
  intro k
  induction k with
  | zero =>
    intro l _ b hb
    simp [chunksAux] at hb
  | succ k ih =>
    intro l h b hb
    rw [Nat.mul_succ] at h
    simp only [chunksAux, List.mem_cons] at hb
    rcases hb with rfl | hb
    · simp only [List.length_take]
      omega
    · exact ih (l.drop n) (by simp only [List.length_drop]; omega) b hb

theorem chunksAux_mem_sublist {α : Type} (n : Nat) :
    ∀ (k : Nat) (l : List α) (b : List α), b ∈ chunksAux n k l → List.Sublist b l := by
  intro k
  induction k with
  | zero =>
    intro l b hb
    simp [chunksAux] at hb
  | succ k ih =>
    intro l b hb
    simp only [chunksAux, List.mem_cons] at hb
    rcases hb with rfl | hb
    · exact List.take_sublist n l
    · exact (ih (l.drop n) b hb).trans (List.drop_sublist n l)

theorem chunksAux_join_sublist {α : Type} (n : Nat) :
    ∀ (k : Nat) (l : List α), List.Sublist (chunksAux n k l).flatten l := by
  intro k
  induction k with
  | zero =>
    intro l
    simp [chunksAux]
  | succ k ih =>
    intro l
    simp only [chunksAux, List.flatten_cons]
    have h3 := List.Sublist.append_left (ih (l.drop n)) (l.take n)
    rw [List.take_append_drop] at h3
    exact h3

theorem grouper_length {α : Type} (n : Nat) (l : List α) :
    (grouper n l).length = l.length / n :=
  chunksAux_length n _ l

theorem grouper_chunk_length {α : Type} (n : Nat) (l : List α) :
    ∀ b ∈ grouper n l, b.length = n := by
  have h : n * (l.length / n) ≤ l.length := by
    calc n * (l.length / n) = l.length / n * n := Nat.mul_comm _ _
    _ ≤ l.length := Nat.div_mul_le_self _ _
  exact chunksAux_mem_length n (l.length / n) l h

theorem zipWith_append_mem :
    ∀ (A B : List (List Nat)) (b : List Nat),
      b ∈ List.zipWith (fun x y => x ++ y) A B →
      ∃ x ∈ A, ∃ y ∈ B, b = x ++ y := by
  intro A
  induction A with
  | nil =>
    intro B b hb
    simp at hb
  | cons a A ih =>
    intro B b hb
    cases B with
    | nil => simp at hb
    | cons c B =>
      simp only [List.zipWith_cons_cons, List.mem_cons] at hb
      rcases hb with rfl | hb
      · exact ⟨a, List.mem_cons_self _ _, c, List.mem_cons_self _ _, rfl⟩
      · obtain ⟨x, hx, y, hy, rfl⟩ := ih B b hb
        exact ⟨x, List.mem_cons_of_mem _ hx, y, List.mem_cons_of_mem _ hy, rfl⟩

theorem zipWith_append_map_take (pbs : Nat) :
    ∀ (A B : List (List Nat)), (∀ a ∈ A, a.length = pbs) → A.length ≤ B.length →
      (List.zipWith (fun x y => x ++ y) A B).map (fun b => b.take pbs) = A := by
  intro A
  induction A with
  | nil =>
    intro B _ _
    simp
  | cons a A ih =>
    intro B hlen hle
    cases B with
    | nil => simp at hle
    | cons c B =>
      simp only [List.zipWith_cons_cons, List.map_cons]
      have ha : a.length = pbs := hlen a (List.mem_cons_self _ _)
      have h1 : (a ++ c).take pbs = a := by
        rw [← ha]
        exact List.take_left a c
      rw [h1, ih B (fun x hx => hlen x (List.mem_cons_of_mem _ hx))
        (by simp at hle; omega)]

/-- C1: with the `iterate_once` permutation of the primary pool and the
consumed prefix of the `iterate_eternally` secondary stream abstracted
(`hperm`: the primary iterator is some permutation of
`primary_indices`; `hstream`, `hlong`: the secondary stream consists of
members of `secondary_indices` and never exhausts, so its chunk stream
is at least as long as the primary one): `__len__` equals
`len(primary_indices) // primary_batch_size`; one full iteration yields
exactly that many batches; each batch has length
`primary_batch_size + secondary_batch_size`; across the epoch the
primary parts are pairwise distinct members of `primary_indices`
(without replacement, when the pool has no duplicates), while every
secondary-part entry is a member of `secondary_indices` (repetition
permitted). -/
theorem twoStream_iter_spec (P S perm stream : List Nat) (pbs sbs : Nat)
    (hperm : List.Perm perm P)
    (hstream : ∀ x ∈ stream, x ∈ S)
    (hlong : (grouper pbs perm).length ≤ (grouper sbs stream).length) :
    TwoStreamBatchSampler.len P pbs = P.length / pbs ∧
    (TwoStreamBatchSampler.iter perm stream pbs sbs).length =
      TwoStreamBatchSampler.len P pbs ∧
    (∀ b ∈ TwoStreamBatchSampler.iter perm stream pbs sbs,
      b.length = pbs + sbs) ∧
    (P.Nodup →
      (((TwoStreamBatchSampler.iter perm stream pbs sbs).map
        (fun b => b.take pbs)).flatten).Nodup) ∧
    (∀ b ∈ TwoStreamBatchSampler.iter perm stream pbs sbs,
      ∀ x ∈ b.take pbs, x ∈ P) ∧
    (∀ b ∈ TwoStreamBatchSampler.iter perm stream pbs sbs,
      ∀ x ∈ b.drop pbs, x ∈ S) := by
  have hchunkP := grouper_chunk_length pbs perm
  have hchunkS := grouper_chunk_length sbs stream
  refine ⟨rfl, ?_, ?_, ?_, ?_, ?_⟩
  · simp only [TwoStreamBatchSampler.iter, List.length_zipWith]
    rw [min_eq_left hlong, grouper_length, hperm.length_eq]
    rfl
  · intro b hb
    obtain ⟨x, hx, y, hy, rfl⟩ := zipWith_append_mem _ _ b hb
    rw [List.length_append, hchunkP x hx, hchunkS y hy]
  · intro hP
    simp only [TwoStreamBatchSampler.iter]
    rw [zipWith_append_map_take pbs _ _ hchunkP hlong]
    have hsub : List.Sublist (grouper pbs perm).flatten perm :=
      chunksAux_join_sublist pbs _ perm
    have hpnd : perm.Nodup := (hperm.nodup_iff).mpr hP
    exact hpnd.sublist hsub
  · intro b hb x hx
    obtain ⟨xc, hxc, yc, hyc, rfl⟩ := zipWith_append_mem _ _ b hb
    rw [← hchunkP xc hxc, List.take_left] at hx
    exact hperm.subset ((chunksAux_mem_sublist pbs _ perm xc hxc).subset hx)
  · intro b hb x hx
    obtain ⟨xc, hxc, yc, hyc, rfl⟩ := zipWith_append_mem _ _ b hb
    rw [← hchunkP xc hxc, List.drop_left] at hx
    exact hstream x ((chunksAux_mem_sublist sbs _ stream yc hyc).subset hx)

theorem twoStream_iter_spec_witness :
    (((TwoStreamBatchSampler.iter [2, 0, 4, 1, 3] [10, 11, 11, 10] 2 2).map
      (fun b => b.take 2)).flatten).Nodup :=
  (twoStream_iter_spec [0, 1, 2, 3, 4] [10, 11] [2, 0, 4, 1, 3] [10, 11, 11, 10] 2 2
    (by decide) (by decide) (by decide)).2.2.2.1 (by decide)
